import Mathlib

/-!
Verification of the lobster command-pipeline shell.

The development shallowly embeds the CLI layer of the repository
(`handleRun`, `handleResume`, `parseModeAndStrip`, `writeToolEnvelope`
from the CLI source file) and the `workflows.run` command
(`src/commands/workflows/workflows_run.js`).

Components of the repository that are only imported by these files
(the pipeline parser, the runtime engine `runPipeline`, and the resume
token codec `encodeToken` / `decodeResumeToken`) are not part of the
given sources; following the specification they are either taken as
parameters (the parser and the engine, whose outcome the CLI merely
branches on) or modelled from the specification (the token codec, for
which the spec demands a versioned, self-describing, deterministic
encode/decode pair).

Effects are made explicit: a CLI invocation produces a list of writes
(tool-mode JSON envelopes, human-mode JSON output, stderr lines), an
exit code, and the list of calls made to the runtime engine, each call
carrying the pipeline and the input stream handed to the engine.  An
exception escaping the handler (which the JS source would surface as an
unhandled rejection) is an `Except.error` result.
-/

namespace Lobster

/-- Items flowing between stages are arbitrary JSON values.  Numbers are
modelled as integers; the claims under verification never depend on
non-integral numerics. -/
inductive Json where
  | null : Json
  | jbool (b : Bool) : Json
  | jnum (n : Int) : Json
  | jstr (s : String) : Json
  | jarr (xs : List Json) : Json
  | jobj (kvs : List (String × Json)) : Json

/-- Modelled from the spec: unary length prefix used by the self-delimiting
resume-token encoding (token.js is not among the given sources). -/
def encNat (n : Nat) : List Char :=
  List.replicate n '1' ++ ['0']

/-- Modelled from the spec: decoder for the unary length prefix. -/
def decNat : List Char → Option (Nat × List Char)
  | '0' :: rest => some (0, rest)
  | '1' :: rest =>
    match decNat rest with
    | some (n, r) => some (n + 1, r)
    | none => none
  | _ => none

/-- Modelled from the spec: length-prefixed string encoding. -/
def encStr (s : String) : List Char :=
  encNat s.length ++ s.data

/-- Modelled from the spec: length-prefixed string decoding. -/
def decStr (cs : List Char) : Option (String × List Char) :=
  match decNat cs with
  | some (n, r) => if n ≤ r.length then some (String.mk (r.take n), r.drop n) else none
  | none => none

/-- Modelled from the spec: signed integer encoding for JSON numbers. -/
def encInt (i : Int) : List Char :=
  if 0 ≤ i then '+' :: encNat i.toNat else '-' :: encNat (-i).toNat

/-- Modelled from the spec: signed integer decoding. -/
def decInt (cs : List Char) : Option (Int × List Char) :=
  match cs with
  | '+' :: r =>
    match decNat r with
    | some (n, r1) => some ((n : Int), r1)
    | none => none
  | '-' :: r =>
    match decNat r with
    | some (n, r1) => some (-(n : Int), r1)
    | none => none
  | _ => none

mutual
/-- Modelled from the spec: self-delimiting encoding of a JSON item, as
required of the resume-token codec (stable, self-describing format). -/
def encJson : Json → List Char
  | .null => ['n']
  | .jbool true => ['b', 't']
  | .jbool false => ['b', 'f']
  | .jnum i => 'i' :: encInt i
  | .jstr s => 's' :: encStr s
  | .jarr xs => 'a' :: encNat xs.length ++ encJsonList xs
  | .jobj kvs => 'o' :: encNat kvs.length ++ encJsonObj kvs

/-- Modelled from the spec: encoding of a sequence of JSON items. -/
def encJsonList : List Json → List Char
  | [] => []
  | x :: xs => encJson x ++ encJsonList xs

/-- Modelled from the spec: encoding of the fields of a JSON object. -/
def encJsonObj : List (String × Json) → List Char
  | [] => []
  | (k, v) :: kvs => encStr k ++ encJson v ++ encJsonObj kvs
end

mutual
/-- Modelled from the spec: fuel-indexed decoder for one JSON item.  The
fuel only bounds recursion depth; `decodeToken` passes the input length,
which the adequacy theorem shows is always sufficient. -/
def decJson : Nat → List Char → Option (Json × List Char)
  | 0, _ => none
  | _ + 1, 'n' :: r => some (.null, r)
  | _ + 1, 'b' :: 't' :: r => some (.jbool true, r)
  | _ + 1, 'b' :: 'f' :: r => some (.jbool false, r)
  | _ + 1, 'i' :: r =>
    match decInt r with
    | some (i, r1) => some (.jnum i, r1)
    | none => none
  | _ + 1, 's' :: r =>
    match decStr r with
    | some (s, r1) => some (.jstr s, r1)
    | none => none
  | fuel + 1, 'a' :: r =>
    match decNat r with
    | some (n, r1) =>
      match decJsonList fuel n r1 with
      | some (xs, r2) => some (.jarr xs, r2)
      | none => none
    | none => none
  | fuel + 1, 'o' :: r =>
    match decNat r with
    | some (n, r1) =>
      match decJsonObj fuel n r1 with
      | some (kvs, r2) => some (.jobj kvs, r2)
      | none => none
    | none => none
  | _ + 1, _ => none

/-- Modelled from the spec: decoder for a counted sequence of JSON items. -/
def decJsonList : Nat → Nat → List Char → Option (List Json × List Char)
  | 0, _, _ => none
  | _ + 1, 0, cs => some ([], cs)
  | fuel + 1, n + 1, cs =>
    match decJson fuel cs with
    | some (x, r) =>
      match decJsonList fuel n r with
      | some (xs, r2) => some (x :: xs, r2)
      | none => none
    | none => none

/-- Modelled from the spec: decoder for the counted fields of a JSON object. -/
def decJsonObj : Nat → Nat → List Char → Option (List (String × Json) × List Char)
  | 0, _, _ => none
  | _ + 1, 0, cs => some ([], cs)
  | fuel + 1, n + 1, cs =>
    match decStr cs with
    | some (k, r0) =>
      match decJson fuel r0 with
      | some (v, r) =>
        match decJsonObj fuel n r with
        | some (kvs, r2) => some ((k, v) :: kvs, r2)
        | none => none
      | none => none
    | none => none
end

/-- Argument values of a pipeline stage: a string or a list of strings,
exactly the value space of the parsed `args` mapping in the spec. -/
inductive ArgVal where
  | one (v : String) : ArgVal
  | many (vs : List String) : ArgVal
deriving DecidableEq

/-- One pipeline stage: a command name and its parsed arguments
(the positional slot is the mapping entry keyed by an underscore). -/
structure Invocation where
  name : String
  args : List (String × ArgVal)
deriving DecidableEq

/-- Modelled from the spec: encoding of a list of strings. -/
def encStrList : List String → List Char
  | [] => []
  | s :: ss => encStr s ++ encStrList ss

/-- Modelled from the spec: decoder for a counted list of strings. -/
def decStrListN : Nat → List Char → Option (List String × List Char)
  | 0, cs => some ([], cs)
  | n + 1, cs =>
    match decStr cs with
    | some (s, r) =>
      match decStrListN n r with
      | some (ss, r2) => some (s :: ss, r2)
      | none => none
    | none => none

/-- Modelled from the spec: encoding of one argument value. -/
def encArgVal : ArgVal → List Char
  | .one v => 's' :: encStr v
  | .many vs => 'm' :: encNat vs.length ++ encStrList vs

/-- Modelled from the spec: decoder for one argument value. -/
def decArgVal (cs : List Char) : Option (ArgVal × List Char) :=
  match cs with
  | 's' :: r =>
    match decStr r with
    | some (v, r1) => some (.one v, r1)
    | none => none
  | 'm' :: r =>
    match decNat r with
    | some (n, r1) =>
      match decStrListN n r1 with
      | some (vs, r2) => some (.many vs, r2)
      | none => none
    | none => none
  | _ => none

/-- Modelled from the spec: encoding of the argument mapping. -/
def encArgPairs : List (String × ArgVal) → List Char
  | [] => []
  | (k, v) :: rest => encStr k ++ encArgVal v ++ encArgPairs rest

/-- Modelled from the spec: decoder for a counted argument mapping. -/
def decArgPairsN : Nat → List Char → Option (List (String × ArgVal) × List Char)
  | 0, cs => some ([], cs)
  | n + 1, cs =>
    match decStr cs with
    | some (k, r0) =>
      match decArgVal r0 with
      | some (v, r1) =>
        match decArgPairsN n r1 with
        | some (rest, r2) => some ((k, v) :: rest, r2)
        | none => none
      | none => none
    | none => none

/-- Modelled from the spec: encoding of one stage invocation. -/
def encInvocation (inv : Invocation) : List Char :=
  encStr inv.name ++ encNat inv.args.length ++ encArgPairs inv.args

/-- Modelled from the spec: decoder for one stage invocation. -/
def decInvocation (cs : List Char) : Option (Invocation × List Char) :=
  match decStr cs with
  | some (name, r0) =>
    match decNat r0 with
    | some (n, r1) =>
      match decArgPairsN n r1 with
      | some (args, r2) => some (⟨name, args⟩, r2)
      | none => none
    | none => none
  | none => none

/-- Modelled from the spec: encoding of a pipeline suffix. -/
def encInvList : List Invocation → List Char
  | [] => []
  | inv :: rest => encInvocation inv ++ encInvList rest

/-- Modelled from the spec: decoder for a counted pipeline suffix. -/
def decInvListN : Nat → List Char → Option (List Invocation × List Char)
  | 0, cs => some ([], cs)
  | n + 1, cs =>
    match decInvocation cs with
    | some (inv, r) =>
      match decInvListN n r with
      | some (rest, r2) => some (inv :: rest, r2)
      | none => none
    | none => none

/-- Modelled from the spec: length-prefixed pipeline encoding. -/
def encPipeline (pl : List Invocation) : List Char :=
  encNat pl.length ++ encInvList pl

/-- Modelled from the spec: pipeline decoding. -/
def decPipeline (cs : List Char) : Option (List Invocation × List Char) :=
  match decNat cs with
  | some (n, r) => decInvListN n r
  | none => none

/-- ResumeContinuation of the spec: the remaining pipeline, the index of
the stage at which execution resumes, the items to replay, and the
approval prompt.  The version field is the constant 1 and lives in the
encoding. -/
structure Continuation where
  pipeline : List Invocation
  resumeAtIndex : Nat
  items : List Json
  prompt : String

/-- Modelled from the spec: `encodeToken` of token.js.  Serializes a
continuation to an opaque, versioned, self-describing string; version
tag first, then pipeline, resume index, replay items and prompt. -/
def encodeToken (c : Continuation) : String :=
  String.mk ('1' :: (encPipeline c.pipeline ++ encNat c.resumeAtIndex ++
    encNat c.items.length ++ encJsonList c.items ++ encStr c.prompt))

/-- Modelled from the spec: `decodeResumeToken` of resume.js.  Fails
deterministically on an empty token, an unrecognized version tag,
malformed contents, or trailing bytes; never partially succeeds. -/
def decodeToken (s : String) : Except String Continuation :=
  match s.data with
  | [] => .error "resume token missing or empty"
  | '1' :: r =>
    match decPipeline r with
    | some (pl, r1) =>
      match decNat r1 with
      | some (idx, r2) =>
        match decNat r2 with
        | some (n, r3) =>
          match decJsonList s.data.length n r3 with
          | some (items, r4) =>
            match decStr r4 with
            | some (prompt, r5) =>
              match r5 with
              | [] => .ok ⟨pl, idx, items, prompt⟩
              | _ :: _ => .error "trailing bytes in resume token"
            | none => .error "malformed resume token"
          | none => .error "malformed resume token"
        | none => .error "malformed resume token"
      | none => .error "malformed resume token"
    | none => .error "malformed resume token"
  | _ :: _ => .error "unrecognized resume token version"

/-- RunResult returned by the runtime engine: the drained items, whether
the terminal stage rendered directly, whether the run halted on an
approval request, and if so at which stage index. -/
structure RunResult where
  items : List Json
  rendered : Bool
  halted : Bool
  haltedAt : Option Nat

/-- Outcome of one `runPipeline` call: a RunResult, or a thrown error
with its message. -/
inductive EngineResult where
  | ok (r : RunResult) : EngineResult
  | fail (msg : String) : EngineResult

/-- The runtime engine as the CLI sees it: it receives the pipeline to
execute and the input stream for stage 0, and produces an outcome.
runtime.js is not among the given sources, so the engine is a parameter
of the CLI model; per the spec it only ever invokes stages of the
pipeline it is handed. -/
abbrev Engine := List Invocation → List Json → EngineResult

/-- The single tool-mode JSON envelope.  `error` carries the error type
tag and message; `requiresApproval` distinguishes an absent field
(`none`), an explicit null (`some none`), and an approval object
(`some (some (item, resumeToken))`, the spread of the approval-request
item plus the resume token). -/
structure Envelope where
  ok : Bool
  status : Option String
  output : Option (List Json)
  error : Option (String × String)
  requiresApproval : Option (Option (Json × String))

/-- One observable write of the CLI layer: a tool envelope printed to
standard output, the human-mode JSON serialization of the items printed
to standard output, or a line printed to standard error. -/
inductive Write where
  | envelope (e : Envelope) : Write
  | jsonOut (items : List Json) : Write
  | errLine (s : String) : Write

/-- Result of one CLI invocation: the writes performed in order, the
process exit code (0 unless set), and the engine calls made, each
recorded with the pipeline and the stage-0 input stream passed. -/
structure CliOut where
  writes : List Write
  exitCode : Nat
  engineCalls : List (List Invocation × List Json)

/-- Count of JSON objects the CLI itself writes to standard output. -/
def stdoutJsonObjects (ws : List Write) : Nat :=
  ws.countP fun w =>
    match w with
    | .envelope _ => true
    | .jsonOut _ => true
    | .errLine _ => false

/-- Count of tool-mode JSON envelopes among the writes. -/
def envelopeWrites (ws : List Write) : Nat :=
  ws.countP fun w =>
    match w with
    | .envelope _ => true
    | .jsonOut _ => false
    | .errLine _ => false

/-- Lookup of a key in the fields of a JSON object value; `none` for
non-objects, mirroring optional chaining on a dynamic value. -/
def jobjLookup : Json → String → Option Json
  | .jobj kvs, k => lookupField kvs k
  | _, _ => none
where
  lookupField : List (String × Json) → String → Option Json
    | [], _ => none
    | (k0, v) :: rest, k => if k0 = k then some v else lookupField rest k

/-- The structural halt check of handleRun and handleResume: the item
has a `type` field equal to the string `approval_request`. -/
def isApprovalRequest (j : Json) : Bool :=
  match jobjLookup j "type" with
  | some (.jstr s) => s == "approval_request"
  | _ => false

/-- The `items` field of an approval-request item, as read by the CLI
when building the resume token (an empty list for a missing or
non-array field, which the well-shaped case never hits). -/
def approvalItemsOf (j : Json) : List Json :=
  match jobjLookup j "items" with
  | some (.jarr xs) => xs
  | _ => []

/-- The `prompt` field of an approval-request item, as read by the CLI
when building the resume token. -/
def approvalPromptOf (j : Json) : String :=
  match jobjLookup j "prompt" with
  | some (.jstr s) => s
  | _ => ""

/-- The approval detection of handleRun and handleResume: the result
halted, produced exactly one item, and that item is shaped as an
approval request; then that item, else nothing. -/
def approvalOf (r : RunResult) : Option Json :=
  if r.halted then
    match r.items with
    | [item] => if isApprovalRequest item then some item else none
    | _ => none
  else none

/-- The resume index stored in the token: the halt index plus one, and 0
when the engine reported no halt index, mirroring the nullish fallback
to -1 before the increment. -/
def resumeIndexAfter : Option Nat → Nat
  | some i => i + 1
  | none => 0

/-- The continuation handleRun hands to encodeToken at halt time. -/
def continuationFor (pipeline : List Invocation) (r : RunResult) (item : Json) : Continuation :=
  ⟨pipeline, resumeIndexAfter r.haltedAt, approvalItemsOf item, approvalPromptOf item⟩

/-- The mode-stripping loop of parseModeAndStrip: consumes `--mode v`
pairs and `--mode=v` tokens, threading the latest mode value; a
`--mode` whose following value is empty or missing leaves the mode
unchanged and does not consume the value; an empty value after
`--mode=` falls back to human. -/
def pmLoop : List String → String → String × List String
  | [], mode => (mode, [])
  | tok :: restArgv, mode =>
    if tok = "--mode" then
      match restArgv with
      | [] => (mode, [])
      | v :: restArgv2 =>
        if v = "" then pmLoop (v :: restArgv2) mode
        else pmLoop restArgv2 v
    else if tok.data.take 7 == "--mode=".data then
      pmLoop restArgv (if tok.drop 7 = "" then "human" else tok.drop 7)
    else
      let mr := pmLoop restArgv mode
      (mr.1, tok :: mr.2)

/-- parseModeAndStrip of the CLI source: extracts the mode (default
human) and returns the remaining argv tokens. -/
def parseModeAndStrip (argv : List String) : String × List String :=
  pmLoop argv "human"

/-- Envelope written on a tool-mode failure. -/
def errorEnvelope (kind msg : String) : Envelope :=
  ⟨false, none, none, some (kind, msg), none⟩

/-- Envelope written on a tool-mode success without halt. -/
def okEnvelope (items : List Json) : Envelope :=
  ⟨true, some "ok", some items, none, some none⟩

/-- Envelope written on a tool-mode halt: empty output and the approval
item spread together with the freshly encoded resume token. -/
def needsApprovalEnvelope (item : Json) (tok : String) : Envelope :=
  ⟨true, some "needs_approval", some [], none, some (some (item, tok))⟩

/-- Envelope written on an unapproved resume. -/
def cancelledEnvelope : Envelope :=
  ⟨true, some "cancelled", some [], none, some none⟩

/-- The body of handleRun after mode stripping: joins the remaining argv
into the pipeline string, parses it (reporting a parse error without
calling the engine, exit code 2), runs the engine once on the parsed
pipeline with an empty stage-0 input, and renders the outcome according
to the mode: the single tool envelope for failure, halt and success, or
human-mode stderr lines and optional JSON output. -/
def handleRunWith (engine : Engine) (parse : String → Except String (List Invocation))
    (mode : String) (rest : List String) : CliOut :=
  match parse (String.intercalate " " rest) with
  | .error msg =>
    if mode = "tool" then
      ⟨[.envelope (errorEnvelope "parse_error" msg)], 2, []⟩
    else
      ⟨[.errLine ("Parse error: " ++ msg)], 2, []⟩
  | .ok pipeline =>
    match engine pipeline [] with
    | .fail msg =>
      if mode = "tool" then
        ⟨[.envelope (errorEnvelope "runtime_error" msg)], 1, [(pipeline, [])]⟩
      else
        ⟨[.errLine ("Error: " ++ msg)], 1, [(pipeline, [])]⟩
    | .ok r =>
      if mode = "tool" then
        match approvalOf r with
        | some item =>
          ⟨[.envelope (needsApprovalEnvelope item (encodeToken (continuationFor pipeline r item)))],
            0, [(pipeline, [])]⟩
        | none =>
          ⟨[.envelope (okEnvelope r.items)], 0, [(pipeline, [])]⟩
      else
        if r.rendered then ⟨[], 0, [(pipeline, [])]⟩
        else ⟨[.jsonOut r.items], 0, [(pipeline, [])]⟩

/-- handleRun of the CLI source: strip the mode from argv, then run. -/
def handleRun (engine : Engine) (parse : String → Except String (List Invocation))
    (argv : List String) : CliOut :=
  handleRunWith engine parse (parseModeAndStrip argv).1 (parseModeAndStrip argv).2

/-- handleResume of the CLI source.  The token argument is decoded
before the try block; a missing or undecodable token therefore throws
out of the handler (the `Except.error` result) instead of producing an
envelope.  With a decoded payload: an unapproved resume writes the
cancelled envelope and never calls the engine; an approved resume
re-enters the engine exactly once with the pipeline sliced at
`resumeAtIndex` and the replay items as the input stream, wrapping the
outcome exactly as handleRun does. -/
def handleResume (engine : Engine) (tokenArg : Option String) (approved : Bool) :
    Except String CliOut :=
  match tokenArg with
  | none => .error "resume requires --token"
  | some t =>
    match decodeToken t with
    | .error e => .error e
    | .ok payload =>
      match approved with
      | false => .ok ⟨[.envelope cancelledEnvelope], 0, []⟩
      | true =>
        match engine (payload.pipeline.drop payload.resumeAtIndex) payload.items with
        | .fail msg =>
          .ok ⟨[.envelope (errorEnvelope "runtime_error" msg)], 1,
            [(payload.pipeline.drop payload.resumeAtIndex, payload.items)]⟩
        | .ok r =>
          match approvalOf r with
          | some item =>
            .ok ⟨[.envelope (needsApprovalEnvelope item
                (encodeToken ⟨payload.pipeline.drop payload.resumeAtIndex,
                  resumeIndexAfter r.haltedAt,
                  approvalItemsOf item, approvalPromptOf item⟩))],
              0, [(payload.pipeline.drop payload.resumeAtIndex, payload.items)]⟩
          | none =>
            .ok ⟨[.envelope (okEnvelope r.items)], 0,
              [(payload.pipeline.drop payload.resumeAtIndex, payload.items)]⟩

/-- The arguments read by the workflows.run command: the `name` flag,
the positional list, and the `args-json` flag (absent fields are
absent keys on the JS args object). -/
structure WfArgs where
  nameFlag : Option String
  positional : List String
  argsJson : Option String

/-- Outcome of the workflows.run command body: a thrown error or the
output stream contents. -/
inductive WfOut where
  | err (msg : String) : WfOut
  | ok (output : List Json) : WfOut

/-- The effective workflow name: the `name` flag if the key is present,
else the first positional argument, mirroring the nullish coalescing in
the source. -/
def wfEffectiveName (a : WfArgs) : Option String :=
  match a.nameFlag with
  | some v => some v
  | none => a.positional.head?

/-- The runner table of workflows_run.js: three registered runners,
keyed by workflow name; the runner implementations live in modules
outside the given sources and are parameters. -/
def wfRunners (r1 r2 r3 : Json → Json) : String → Option (Json → Json) :=
  fun name =>
    if name = "email.triage" then some r1
    else if name = "github.pr.monitor" then some r2
    else if name = "github.pr.monitor.notify" then some r3
    else none

/-- The input-draining loop of workflows.run: the stream left after the
loop consumed every item. -/
def drainStream : List Json → List Json
  | [] => []
  | _ :: rest => drainStream rest

/-- The body of workflows.run after draining its input, from
workflows_run.js: resolve the effective name (throwing on a falsy one),
look it up in the workflow registry (membership is the parameter
`registry`, the registry module being outside the given sources), look
up the runner, parse `args-json` when it is a truthy string (throwing
when it does not parse), and emit exactly the runner result. -/
def workflowsRun (registry : String → Bool) (runners : String → Option (Json → Json))
    (parseJson : String → Option Json) (a : WfArgs) : WfOut :=
  match wfEffectiveName a with
  | none => .err "workflows.run requires --name"
  | some name =>
    if name = "" then .err "workflows.run requires --name"
    else if registry name = false then .err ("Unknown workflow: " ++ name)
    else
      match runners name with
      | none => .err ("Workflow runner not implemented: " ++ name)
      | some runner =>
        match a.argsJson with
        | none => .ok [runner (Json.jobj [])]
        | some s =>
          if s = "" then .ok [runner (Json.jobj [])]
          else
            match parseJson s with
            | none => .err "workflows.run --args-json must be valid JSON"
            | some j => .ok [runner j]

/-- The whole workflows.run command run: drain the input stream fully,
then execute the body; the first component is the stream left
unconsumed after the drain loop. -/
def workflowsRunCommand (registry : String → Bool) (runners : String → Option (Json → Json))
    (parseJson : String → Option Json) (input : List Json) (a : WfArgs) :
    List Json × WfOut :=
  (drainStream input, workflowsRun registry runners parseJson a)

/-- Sample approval-request item used by concrete witnesses: the shape
the approve stage emits per the spec scenario. -/
def sampleApprovalItem : Json :=
  .jobj [("type", .jstr "approval_request"), ("items", .jarr [.jnum 1]),
    ("prompt", .jstr "ok?")]

/-- Sample two-stage pipeline from the spec scenario. -/
def samplePipeline : List Invocation :=
  [⟨"exec", [("json", .one "echo [1]")]⟩, ⟨"approve", [("prompt", .one "ok?")]⟩]

/-- Sample engine result for a halt at stage index 1. -/
def sampleHaltResult : RunResult :=
  ⟨[sampleApprovalItem], false, true, some 1⟩

/-- Sample engine that halts with the sample approval request. -/
def sampleEngineHalt : Engine :=
  fun _ _ => .ok sampleHaltResult

/-- Sample engine that completes with no items. -/
def sampleEngineDone : Engine :=
  fun _ _ => .ok ⟨[], false, false, none⟩

/-- Sample parser returning the sample pipeline for any input. -/
def sampleParse : String → Except String (List Invocation) :=
  fun _ => .ok samplePipeline

/-- Sample continuation from the spec scenario halt. -/
def sampleContinuation : Continuation :=
  ⟨samplePipeline, 2, [.jnum 1], "ok?"⟩

/-- The unary length prefix decodes what it encodes. -/
theorem decNat_encNat (n : Nat) (rest : List Char) :
    decNat (encNat n ++ rest) = some (n, rest) := by
  induction n with
  | zero => simp [encNat, decNat]
  | succ k ih =>
    have h : encNat (k + 1) = '1' :: encNat k := by
      simp [encNat, List.replicate_succ]
    rw [h]
    simp [decNat, ih]

/-- The length-prefixed string codec round-trips. -/
theorem decStr_encStr (s : String) (rest : List Char) :
    decStr (encStr s ++ rest) = some (s, rest) := by
  unfold decStr encStr
  rw [List.append_assoc, decNat_encNat]
  have hlen : s.length = s.data.length := rfl
  simp only [hlen, List.length_append, Nat.le_add_right, if_pos, List.take_left, List.drop_left]

/-- The signed integer codec round-trips. -/
theorem decInt_encInt (i : Int) (rest : List Char) :
    decInt (encInt i ++ rest) = some (i, rest) := by
  unfold encInt
  by_cases h : 0 ≤ i
  · simp only [h, if_pos, List.cons_append, decInt, decNat_encNat]
    rw [Int.toNat_of_nonneg h]
  · simp only [h, if_neg, List.cons_append, decInt, decNat_encNat, not_false_iff]
    congr 1
    congr 1
    omega

/-- Length of the unary prefix. -/
theorem encNat_length (n : Nat) : (encNat n).length = n + 1 := by
  simp [encNat]

/-- Length of an encoded string. -/
theorem encStr_length (s : String) : (encStr s).length = s.length + 1 + s.length := by
  have hlen : s.data.length = s.length := rfl
  simp [encStr, encNat, hlen]
  omega

/-- An encoded JSON item is never empty. -/
theorem encJson_length_pos (j : Json) : 0 < (encJson j).length := by
  cases j with
  | jbool b => cases b <;> simp [encJson]
  | _ => simp [encJson]

/-- Adequacy of the fuel-indexed JSON decoder: any fuel at least the
length of the encoding decodes it back, leaving the rest untouched. -/
theorem decJson_adequate : ∀ fuel : Nat,
    (∀ j rest, (encJson j).length ≤ fuel →
       decJson fuel (encJson j ++ rest) = some (j, rest))
  ∧ (∀ xs rest, (encJsonList xs).length + 1 ≤ fuel →
       decJsonList fuel xs.length (encJsonList xs ++ rest) = some (xs, rest))
  ∧ (∀ kvs rest, (encJsonObj kvs).length + 1 ≤ fuel →
       decJsonObj fuel kvs.length (encJsonObj kvs ++ rest) = some (kvs, rest)) := by
  intro fuel
  induction fuel with
  | zero =>
    refine ⟨fun j rest h => ?_, fun xs rest h => by omega, fun kvs rest h => by omega⟩
    exact absurd h (by have := encJson_length_pos j; omega)
  | succ fuel ih =>
    obtain ⟨ihj, ihl, iho⟩ := ih
    refine ⟨?_, ?_, ?_⟩
    · intro j rest h
      cases j with
      | null => simp [encJson, decJson]
      | jbool b => cases b <;> simp [encJson, decJson]
      | jnum i =>
        simp only [encJson, List.cons_append, decJson]
        rw [decInt_encInt]
      | jstr s =>
        simp only [encJson, List.cons_append, decJson]
        rw [decStr_encStr]
      | jarr xs =>
        have hlen : (encJsonList xs).length + 1 ≤ fuel := by
          simp only [encJson, List.length_cons, List.length_append, encNat_length] at h
          omega
        simp only [encJson, List.cons_append, List.append_assoc, decJson]
        rw [decNat_encNat]
        simp [ihl xs rest hlen]
      | jobj kvs =>
        have hlen : (encJsonObj kvs).length + 1 ≤ fuel := by
          simp only [encJson, List.length_cons, List.length_append, encNat_length] at h
          omega
        simp only [encJson, List.cons_append, List.append_assoc, decJson]
        rw [decNat_encNat]
        simp [iho kvs rest hlen]
    · intro xs rest h
      cases xs with
      | nil => simp [encJsonList, decJsonList]
      | cons x xs =>
        have hpos := encJson_length_pos x
        have hx : (encJson x).length ≤ fuel := by
          simp only [encJsonList, List.length_append] at h; omega
        have hxs : (encJsonList xs).length + 1 ≤ fuel := by
          simp only [encJsonList, List.length_append] at h; omega
        simp only [encJsonList, List.append_assoc, List.length_cons, decJsonList]
        rw [ihj x _ hx]
        simp [ihl xs rest hxs]
    · intro kvs rest h
      cases kvs with
      | nil => simp [encJsonObj, decJsonObj]
      | cons kv kvs =>
        obtain ⟨k, v⟩ := kv
        have hkpos : 0 < (encStr k).length := by rw [encStr_length]; omega
        have hvpos := encJson_length_pos v
        have hv : (encJson v).length ≤ fuel := by
          simp only [encJsonObj, List.length_append] at h; omega
        have hkvs : (encJsonObj kvs).length + 1 ≤ fuel := by
          simp only [encJsonObj, List.length_append] at h; omega
        simp only [encJsonObj, List.append_assoc, List.length_cons, decJsonObj]
        rw [decStr_encStr]
        simp [ihj v _ hv, iho kvs rest hkvs]

/-- String-list codec round-trip. -/
theorem decStrListN_enc (ss : List String) (rest : List Char) :
    decStrListN ss.length (encStrList ss ++ rest) = some (ss, rest) := by
  induction ss generalizing rest with
  | nil => simp [encStrList, decStrListN]
  | cons s ss ih =>
    simp only [encStrList, List.append_assoc, List.length_cons, decStrListN]
    rw [decStr_encStr]
    simp [ih rest]

/-- Argument-value codec round-trip. -/
theorem decArgVal_enc (v : ArgVal) (rest : List Char) :
    decArgVal (encArgVal v ++ rest) = some (v, rest) := by
  cases v with
  | one s =>
    simp only [encArgVal, List.cons_append, decArgVal]
    rw [decStr_encStr]
  | many vs =>
    simp only [encArgVal, List.cons_append, List.append_assoc, decArgVal]
    rw [decNat_encNat]
    simp [decStrListN_enc vs rest]

/-- Argument-mapping codec round-trip. -/
theorem decArgPairsN_enc (args : List (String × ArgVal)) (rest : List Char) :
    decArgPairsN args.length (encArgPairs args ++ rest) = some (args, rest) := by
  induction args generalizing rest with
  | nil => simp [encArgPairs, decArgPairsN]
  | cons kv args ih =>
    obtain ⟨k, v⟩ := kv
    simp only [encArgPairs, List.append_assoc, List.length_cons, decArgPairsN]
    rw [decStr_encStr]
    simp only [decArgVal_enc]
    simp [ih rest]

/-- Invocation codec round-trip. -/
theorem decInvocation_enc (inv : Invocation) (rest : List Char) :
    decInvocation (encInvocation inv ++ rest) = some (inv, rest) := by
  obtain ⟨name, args⟩ := inv
  simp only [encInvocation, List.append_assoc, decInvocation]
  rw [decStr_encStr]
  simp only [decNat_encNat]
  simp [decArgPairsN_enc args rest]

/-- Invocation-list codec round-trip. -/
theorem decInvListN_enc (pl : List Invocation) (rest : List Char) :
    decInvListN pl.length (encInvList pl ++ rest) = some (pl, rest) := by
  induction pl generalizing rest with
  | nil => simp [encInvList, decInvListN]
  | cons inv pl ih =>
    simp only [encInvList, List.append_assoc, List.length_cons, decInvListN]
    rw [decInvocation_enc]
    simp [ih rest]

/-- Pipeline codec round-trip. -/
theorem decPipeline_enc (pl : List Invocation) (rest : List Char) :
    decPipeline (encPipeline pl ++ rest) = some (pl, rest) := by
  simp only [encPipeline, List.append_assoc, decPipeline]
  rw [decNat_encNat]
  exact decInvListN_enc pl rest

/-- Shared round-trip lemma for the resume token codec. -/
theorem token_roundtrip (c : Continuation) :
    decodeToken (encodeToken c) = .ok c := by
  obtain ⟨pl, idx, items, prompt⟩ := c
  have henc : encodeToken ⟨pl, idx, items, prompt⟩ =
      String.mk ('1' :: (encPipeline pl ++ (encNat idx ++ (encNat items.length ++
        (encJsonList items ++ encStr prompt))))) := by
    simp [encodeToken, List.append_assoc]
  have hfuel : (encJsonList items).length + 1 ≤
      ('1' :: (encPipeline pl ++ (encNat idx ++ (encNat items.length ++
        (encJsonList items ++ encStr prompt))))).length := by
    simp only [List.length_cons, List.length_append, encNat_length]
    omega
  have hitems := (decJson_adequate (('1' :: (encPipeline pl ++ (encNat idx ++
    (encNat items.length ++ (encJsonList items ++ encStr prompt))))).length)).2.1
    items (encStr prompt) hfuel
  have hprompt := decStr_encStr prompt []
  rw [List.append_nil] at hprompt
  rw [henc]
  unfold decodeToken
  simp only [decPipeline_enc, decNat_encNat, hitems, hprompt]

/-- An encoded resume token is never the empty string. -/
theorem encodeToken_ne_empty (c : Continuation) : encodeToken c ≠ "" := by
  intro h
  have : (encodeToken c).data = ("" : String).data := by rw [h]
  simp [encodeToken] at this

/-- The drain loop of workflows.run consumes the entire input stream. -/
theorem drainStream_eq_nil (l : List Json) : drainStream l = [] := by
  induction l with
  | nil => rfl
  | cons x xs ih => simpa [drainStream] using ih

/-- The runner table has a fixed domain: whether a name has a runner
does not depend on the runner implementations. -/
theorem wfRunners_none_iff (r1 r2 r3 r1' r2' r3' : Json → Json) (n : String) :
    wfRunners r1 r2 r3 n = none ↔ wfRunners r1' r2' r3' n = none := by
  unfold wfRunners
  split_ifs <;> simp

/-- A name with a runner has one under any runner implementations. -/
theorem wfRunners_some_exists (r1 r2 r3 r1' r2' r3' : Json → Json) (n : String)
    (runner : Json → Json) (h : wfRunners r1 r2 r3 n = some runner) :
    ∃ runner', wfRunners r1' r2' r3' n = some runner' := by
  unfold wfRunners at h ⊢
  split_ifs at h ⊢ <;> simp_all

/-- A throwing workflows.run outcome does not depend on the runner
implementations: no runner was invoked to produce it. -/
theorem workflowsRun_err_invariant (registry : String → Bool)
    (parseJson : String → Option Json) (a : WfArgs) (msg : String)
    (r1 r2 r3 r1' r2' r3' : Json → Json)
    (h : workflowsRun registry (wfRunners r1 r2 r3) parseJson a = .err msg) :
    workflowsRun registry (wfRunners r1' r2' r3') parseJson a = .err msg := by
  unfold workflowsRun at h ⊢
  cases he : wfEffectiveName a with
  | none => rw [he] at h; exact h
  | some n =>
    rw [he] at h
    by_cases hn : n = ""
    · simp only [hn, if_pos] at h ⊢
      exact h
    · simp only [hn, if_neg, not_false_iff] at h ⊢
      by_cases hreg : registry n = false
      · simp only [hreg, if_pos] at h ⊢
        exact h
      · simp only [hreg, if_neg, not_false_iff] at h ⊢
        cases hr : wfRunners r1 r2 r3 n with
        | none =>
          have hr' : wfRunners r1' r2' r3' n = none :=
            (wfRunners_none_iff r1 r2 r3 r1' r2' r3' n).mp hr
          rw [hr] at h
          rw [hr']
          exact h
        | some runner =>
          obtain ⟨runner', hr'⟩ := wfRunners_some_exists r1 r2 r3 r1' r2' r3' n runner hr
          rw [hr] at h
          rw [hr']
          cases ha : a.argsJson with
          | none => rw [ha] at h; exact absurd h (by simp)
          | some s =>
            rw [ha] at h
            by_cases hs : s = ""
            · simp only [hs, if_pos] at h
              exact absurd h (by simp)
            · simp only [hs, if_neg, not_false_iff] at h ⊢
              cases hp : parseJson s with
              | none => rw [hp] at h; exact h
              | some j => rw [hp] at h; exact absurd h (by simp)

/-- Claim C7: for all valid ResumeContinuation values c, decode(encode(c))
equals c: the pipeline suffix, resumeAtIndex, items, and prompt survive
the encode-decode round trip with structural equality. -/
theorem claim_token_roundtrip (c : Continuation) :
    decodeToken (encodeToken c) = .ok c :=
  token_roundtrip c

/-- Claim C6: for every resume invocation with a decodable token where
the approval flag is not set, the process emits the single envelope with
ok true, status cancelled, empty output and null requiresApproval, and
makes no engine call, so no pipeline stage executes at all. -/
theorem claim_cancelled_resume (engine : Engine) (tok : String) (payload : Continuation)
    (hdec : decodeToken tok = .ok payload) :
    handleResume engine (some tok) false =
      .ok ⟨[.envelope ⟨true, some "cancelled", some [], none, some none⟩], 0, []⟩ := by
  simp [handleResume, hdec, cancelledEnvelope]

/-- Witness for claim C6 at the sample continuation token. -/
theorem claim_cancelled_resume_witness :
    handleResume sampleEngineDone (some (encodeToken sampleContinuation)) false =
      .ok ⟨[.envelope ⟨true, some "cancelled", some [], none, some none⟩], 0, []⟩ :=
  claim_cancelled_resume sampleEngineDone (encodeToken sampleContinuation)
    sampleContinuation (token_roundtrip sampleContinuation)

/-- Claim C5: in tool mode, a parse failure emits the one parse_error
envelope with exit code 2 and no engine call (so before any stage
executes), a runtime failure emits the one runtime_error envelope with
exit code 1, and a successful or halted run leaves the exit code 0. -/
theorem claim_tool_exit_codes (engine : Engine)
    (parse : String → Except String (List Invocation)) (rest : List String) :
    match parse (String.intercalate " " rest) with
    | .error msg =>
      handleRunWith engine parse "tool" rest =
        ⟨[.envelope (errorEnvelope "parse_error" msg)], 2, []⟩
    | .ok pipeline =>
      match engine pipeline [] with
      | .fail msg =>
        handleRunWith engine parse "tool" rest =
          ⟨[.envelope (errorEnvelope "runtime_error" msg)], 1, [(pipeline, [])]⟩
      | .ok _ => (handleRunWith engine parse "tool" rest).exitCode = 0 := by
  cases hp : parse (String.intercalate " " rest) with
  | error msg => simp [handleRunWith, hp]
  | ok pipeline =>
    cases he : engine pipeline [] with
    | fail msg => simp [handleRunWith, hp, he]
    | ok r =>
      simp only [handleRunWith, hp, he]
      cases approvalOf r <;> simp

/-- Claim C4: a tool-mode run whose result halts with exactly one
approval-request item emits the envelope with ok true, status
needs_approval, empty output, and a requiresApproval object carrying the
approval item (hence its prompt) and a non-empty resumeToken string. -/
theorem claim_needs_approval_envelope (engine : Engine)
    (parse : String → Except String (List Invocation)) (rest : List String)
    (pipeline : List Invocation) (r : RunResult) (item : Json)
    (hparse : parse (String.intercalate " " rest) = .ok pipeline)
    (hengine : engine pipeline [] = .ok r)
    (hhalt : r.halted = true) (hitems : r.items = [item])
    (happr : isApprovalRequest item = true) :
    handleRunWith engine parse "tool" rest =
      ⟨[.envelope ⟨true, some "needs_approval", some [], none,
        some (some (item, encodeToken (continuationFor pipeline r item)))⟩],
        0, [(pipeline, [])]⟩
  ∧ encodeToken (continuationFor pipeline r item) ≠ "" := by
  constructor
  · simp [handleRunWith, hparse, hengine, approvalOf, hhalt, hitems, happr,
      needsApprovalEnvelope]
  · exact encodeToken_ne_empty _

/-- Witness for claim C4 at the spec scenario halt. -/
theorem claim_needs_approval_envelope_witness :
    handleRunWith sampleEngineHalt sampleParse "tool" ["x"] =
      ⟨[.envelope ⟨true, some "needs_approval", some [], none,
        some (some (sampleApprovalItem,
          encodeToken (continuationFor samplePipeline sampleHaltResult sampleApprovalItem)))⟩],
        0, [(samplePipeline, [])]⟩
  ∧ encodeToken (continuationFor samplePipeline sampleHaltResult sampleApprovalItem) ≠ "" :=
  claim_needs_approval_envelope sampleEngineHalt sampleParse ["x"]
    samplePipeline sampleHaltResult sampleApprovalItem rfl rfl rfl rfl rfl

/-- Claim C8: in human mode, a successful run with rendered false writes
the JSON serialization of the items as the sole output; with rendered
true the CLI writes nothing itself. -/
theorem claim_human_mode_output (engine : Engine)
    (parse : String → Except String (List Invocation)) (rest : List String)
    (pipeline : List Invocation) (r : RunResult)
    (hparse : parse (String.intercalate " " rest) = .ok pipeline)
    (hengine : engine pipeline [] = .ok r) :
    handleRunWith engine parse "human" rest =
      if r.rendered then ⟨[], 0, [(pipeline, [])]⟩
      else ⟨[.jsonOut r.items], 0, [(pipeline, [])]⟩ := by
  by_cases hr : r.rendered <;> simp [handleRunWith, hparse, hengine, hr]

/-- Witness for claim C8 at a completing engine with rendered false. -/
theorem claim_human_mode_output_witness :
    handleRunWith sampleEngineDone sampleParse "human" ["x"] =
      if (RunResult.mk [] false false none).rendered then ⟨[], 0, [(samplePipeline, [])]⟩
      else ⟨[.jsonOut (RunResult.mk [] false false none).items], 0, [(samplePipeline, [])]⟩ :=
  claim_human_mode_output sampleEngineDone sampleParse ["x"]
    samplePipeline (RunResult.mk [] false false none) rfl rfl

/-- Claim C1: when a tool-mode run halts with a sole approval_request
item, the encoded resume token carries resumeAtIndex equal to the halt
stage index plus 1, together with the approval request items and prompt
(first conjunct, via decoding the emitted token; second conjunct shows
that token is the one placed in the emitted envelope); and for every
decodable token, the approved resume path re-enters the engine exactly
once with the pipeline sliced at resumeAtIndex and the input stream
reconstructed exactly from the token items, so no stage before
resumeAtIndex is ever re-invoked (third and fourth conjuncts: the
sliced pipeline is the drop at resumeAtIndex, whose entry k is the
original entry resumeAtIndex + k). -/
theorem claim_resume_token_and_slice (engine : Engine)
    (parse : String → Except String (List Invocation)) (rest : List String)
    (pipeline : List Invocation) (r : RunResult) (item : Json) (i : Nat)
    (tok : String) (payload : Continuation) (k : Nat)
    (hparse : parse (String.intercalate " " rest) = .ok pipeline)
    (hengine : engine pipeline [] = .ok r)
    (hhalt : r.halted = true) (hitems : r.items = [item])
    (happr : isApprovalRequest item = true) (hidx : r.haltedAt = some i)
    (hdec : decodeToken tok = .ok payload) :
    decodeToken (encodeToken (continuationFor pipeline r item)) =
      .ok ⟨pipeline, i + 1, approvalItemsOf item, approvalPromptOf item⟩
  ∧ (handleRunWith engine parse "tool" rest).writes =
      [.envelope (needsApprovalEnvelope item (encodeToken (continuationFor pipeline r item)))]
  ∧ (∃ out, handleResume engine (some tok) true = .ok out ∧
      out.engineCalls = [(payload.pipeline.drop payload.resumeAtIndex, payload.items)])
  ∧ (payload.pipeline.drop payload.resumeAtIndex)[k]? =
      payload.pipeline[payload.resumeAtIndex + k]? := by
  refine ⟨?_, ?_, ?_, List.getElem?_drop _ _ _⟩
  · rw [token_roundtrip]
    simp [continuationFor, resumeIndexAfter, hidx]
  · simp [handleRunWith, hparse, hengine, approvalOf, hhalt, hitems, happr]
  · cases he : engine (payload.pipeline.drop payload.resumeAtIndex) payload.items with
    | fail msg =>
      exact ⟨⟨[.envelope (errorEnvelope "runtime_error" msg)], 1,
        [(payload.pipeline.drop payload.resumeAtIndex, payload.items)]⟩,
        by simp [handleResume, hdec, he], rfl⟩
    | ok r2 =>
      cases ha : approvalOf r2 with
      | none =>
        exact ⟨⟨[.envelope (okEnvelope r2.items)], 0,
          [(payload.pipeline.drop payload.resumeAtIndex, payload.items)]⟩,
          by simp [handleResume, hdec, he, ha], rfl⟩
      | some item2 =>
        exact ⟨⟨[.envelope (needsApprovalEnvelope item2
            (encodeToken ⟨payload.pipeline.drop payload.resumeAtIndex,
              resumeIndexAfter r2.haltedAt,
              approvalItemsOf item2, approvalPromptOf item2⟩))], 0,
          [(payload.pipeline.drop payload.resumeAtIndex, payload.items)]⟩,
          by simp [handleResume, hdec, he, ha], rfl⟩

/-- Witness for claim C1 at the spec scenario halt and its token. -/
theorem claim_resume_token_and_slice_witness :
    decodeToken (encodeToken (continuationFor samplePipeline sampleHaltResult sampleApprovalItem)) =
      .ok ⟨samplePipeline, 1 + 1, approvalItemsOf sampleApprovalItem,
        approvalPromptOf sampleApprovalItem⟩
  ∧ (handleRunWith sampleEngineHalt sampleParse "tool" ["x"]).writes =
      [.envelope (needsApprovalEnvelope sampleApprovalItem
        (encodeToken (continuationFor samplePipeline sampleHaltResult sampleApprovalItem)))]
  ∧ (∃ out, handleResume sampleEngineHalt (some (encodeToken sampleContinuation)) true = .ok out ∧
      out.engineCalls =
        [(sampleContinuation.pipeline.drop sampleContinuation.resumeAtIndex,
          sampleContinuation.items)])
  ∧ (sampleContinuation.pipeline.drop sampleContinuation.resumeAtIndex)[0]? =
      sampleContinuation.pipeline[sampleContinuation.resumeAtIndex + 0]? :=
  claim_resume_token_and_slice sampleEngineHalt sampleParse ["x"]
    samplePipeline sampleHaltResult sampleApprovalItem 1
    (encodeToken sampleContinuation) sampleContinuation 0
    rfl rfl rfl rfl rfl rfl (token_roundtrip sampleContinuation)

/-- Claim C2: on the resume path a missing token, an empty token, an
unrecognized version, or an undecodable token does NOT surface as a
runtime_error envelope: the failure thrown by the token decoding escapes
the handler before the envelope-writing try block, contradicting the
claimed behavior.  The first two conjuncts show the escape (an
Except.error result, no envelope written); the last two evaluate the
modelled decoder on concrete bad tokens. -/
theorem claim_token_failure_escapes (engine : Engine) (approved : Bool) (tok e : String)
    (hdec : decodeToken tok = .error e) :
    handleResume engine none approved = .error "resume requires --token"
  ∧ handleResume engine (some tok) approved = .error e
  ∧ decodeToken "" = .error "resume token missing or empty"
  ∧ decodeToken "zz" = .error "unrecognized resume token version" := by
  refine ⟨rfl, ?_, rfl, rfl⟩
  simp [handleResume, hdec]

/-- Witness for claim C2 at a concrete wrong-version token. -/
theorem claim_token_failure_escapes_witness :
    handleResume sampleEngineDone none true = .error "resume requires --token"
  ∧ handleResume sampleEngineDone (some "zz") true =
      .error "unrecognized resume token version"
  ∧ decodeToken "" = .error "resume token missing or empty"
  ∧ decodeToken "zz" = .error "unrecognized resume token version" :=
  claim_token_failure_escapes sampleEngineDone true "zz"
    "unrecognized resume token version" rfl

/-- Claim C3: in tool mode every run invocation writes exactly one JSON
object to standard output in all outcomes, and so does every resume
invocation whose token decodes; but a resume invocation with an
undecodable token escapes before writing anything (third conjunct), so
the claimed invariant fails for that case. -/
theorem claim_single_envelope (engine : Engine)
    (parse : String → Except String (List Invocation)) (rest : List String)
    (tok : String) (payload : Continuation) (approved : Bool)
    (hdec : decodeToken tok = .ok payload) :
    stdoutJsonObjects (handleRunWith engine parse "tool" rest).writes = 1
  ∧ (∃ out, handleResume engine (some tok) approved = .ok out ∧
      stdoutJsonObjects out.writes = 1)
  ∧ handleResume engine (some "zz") true = .error "unrecognized resume token version" := by
  refine ⟨?_, ?_, rfl⟩
  · cases hp : parse (String.intercalate " " rest) with
    | error msg => simp [handleRunWith, hp, stdoutJsonObjects]
    | ok pipeline =>
      cases he : engine pipeline [] with
      | fail msg => simp [handleRunWith, hp, he, stdoutJsonObjects]
      | ok r =>
        simp only [handleRunWith, hp, he]
        cases approvalOf r <;> simp [stdoutJsonObjects]
  · cases approved with
    | false =>
      exact ⟨⟨[.envelope cancelledEnvelope], 0, []⟩, by simp [handleResume, hdec], rfl⟩
    | true =>
      cases he : engine (payload.pipeline.drop payload.resumeAtIndex) payload.items with
      | fail msg =>
        exact ⟨⟨[.envelope (errorEnvelope "runtime_error" msg)], 1,
          [(payload.pipeline.drop payload.resumeAtIndex, payload.items)]⟩,
          by simp [handleResume, hdec, he], rfl⟩
      | ok r =>
        cases ha : approvalOf r with
        | none =>
          exact ⟨⟨[.envelope (okEnvelope r.items)], 0,
            [(payload.pipeline.drop payload.resumeAtIndex, payload.items)]⟩,
            by simp [handleResume, hdec, he, ha], rfl⟩
        | some item =>
          exact ⟨⟨[.envelope (needsApprovalEnvelope item
              (encodeToken ⟨payload.pipeline.drop payload.resumeAtIndex,
                resumeIndexAfter r.haltedAt,
                approvalItemsOf item, approvalPromptOf item⟩))], 0,
            [(payload.pipeline.drop payload.resumeAtIndex, payload.items)]⟩,
            by simp [handleResume, hdec, he, ha], rfl⟩

/-- Witness for claim C3 at the sample token. -/
theorem claim_single_envelope_witness :
    stdoutJsonObjects (handleRunWith sampleEngineDone sampleParse "tool" ["x"]).writes = 1
  ∧ (∃ out, handleResume sampleEngineDone (some (encodeToken sampleContinuation)) false = .ok out ∧
      stdoutJsonObjects out.writes = 1)
  ∧ handleResume sampleEngineDone (some "zz") true =
      .error "unrecognized resume token version" :=
  claim_single_envelope sampleEngineDone sampleParse ["x"]
    (encodeToken sampleContinuation) sampleContinuation false
    (token_roundtrip sampleContinuation)

/-- Claim C10: any mode value other than the exact string tool behaves
exactly as human mode: the run is identical to a human-mode run, no
envelope is written, parse and runtime failures go to standard error
with the human-readable prefixes, a bare mode assignment with an empty
value falls back to human in parseModeAndStrip, and handleRun is the
composition of parseModeAndStrip with the run body. -/
theorem claim_mode_fallback_human (engine : Engine)
    (parse : String → Except String (List Invocation)) (mode : String)
    (rest tail argv : List String) (hmode : mode ≠ "tool") :
    handleRunWith engine parse mode rest = handleRunWith engine parse "human" rest
  ∧ envelopeWrites (handleRunWith engine parse mode rest).writes = 0
  ∧ (match parse (String.intercalate " " rest) with
     | .error msg =>
       handleRunWith engine parse mode rest = ⟨[.errLine ("Parse error: " ++ msg)], 2, []⟩
     | .ok pipeline =>
       match engine pipeline [] with
       | .fail msg =>
         handleRunWith engine parse mode rest =
           ⟨[.errLine ("Error: " ++ msg)], 1, [(pipeline, [])]⟩
       | .ok _ => True)
  ∧ parseModeAndStrip ("--mode=" :: tail) = parseModeAndStrip tail
  ∧ handleRun engine parse argv =
      handleRunWith engine parse (parseModeAndStrip argv).1 (parseModeAndStrip argv).2 := by
  have hhuman : handleRunWith engine parse mode rest = handleRunWith engine parse "human" rest := by
    unfold handleRunWith
    cases hp : parse (String.intercalate " " rest) with
    | error msg => simp [hmode]
    | ok pipeline =>
      cases he : engine pipeline [] with
      | fail msg => simp [hmode]
      | ok r => simp [hmode]
  refine ⟨hhuman, ?_, ?_, ?_, rfl⟩
  · rw [hhuman]
    cases hp : parse (String.intercalate " " rest) with
    | error msg => simp [handleRunWith, hp, envelopeWrites]
    | ok pipeline =>
      cases he : engine pipeline [] with
      | fail msg => simp [handleRunWith, hp, he, envelopeWrites]
      | ok r =>
        by_cases hr : r.rendered <;> simp [handleRunWith, hp, he, hr, envelopeWrites]
  · cases hp : parse (String.intercalate " " rest) with
    | error msg =>
      rw [hhuman]
      simp [handleRunWith, hp]
    | ok pipeline =>
      rw [hhuman]
      cases he : engine pipeline [] with
      | fail msg => simp [handleRunWith, hp, he]
      | ok r => simp [he]
  · show pmLoop ("--mode=" :: tail) "human" = pmLoop tail "human"
    rw [pmLoop.eq_def]
    norm_num
    rw [if_neg (by decide : ¬ ("--mode=" = "--mode"))]
    rw [if_pos (by decide : "--mode=".drop 7 = "")]

/-- Witness for claim C10 at the non-tool mode value TOOL. -/
theorem claim_mode_fallback_human_witness :
    handleRunWith sampleEngineDone sampleParse "TOOL" ["x"] =
      handleRunWith sampleEngineDone sampleParse "human" ["x"]
  ∧ envelopeWrites (handleRunWith sampleEngineDone sampleParse "TOOL" ["x"]).writes = 0
  ∧ (match sampleParse (String.intercalate " " ["x"]) with
     | .error msg =>
       handleRunWith sampleEngineDone sampleParse "TOOL" ["x"] =
         ⟨[.errLine ("Parse error: " ++ msg)], 2, []⟩
     | .ok pipeline =>
       match sampleEngineDone pipeline [] with
       | .fail msg =>
         handleRunWith sampleEngineDone sampleParse "TOOL" ["x"] =
           ⟨[.errLine ("Error: " ++ msg)], 1, [(pipeline, [])]⟩
       | .ok _ => True)
  ∧ parseModeAndStrip ("--mode=" :: ["y"]) = parseModeAndStrip ["y"]
  ∧ handleRun sampleEngineDone sampleParse ["--mode", "z"] =
      handleRunWith sampleEngineDone sampleParse
        (parseModeAndStrip ["--mode", "z"]).1 (parseModeAndStrip ["--mode", "z"]).2 :=
  claim_mode_fallback_human sampleEngineDone sampleParse "TOOL" ["x"] ["y"]
    ["--mode", "z"] (by decide)

/-- Claim C9 counterexample: with the args-json flag present but equal
to the empty string, which is not valid JSON (the modelled parse
function returns none on it), workflows.run neither throws nor skips the
runner: it invokes the runner and yields its result, because the source
tests truthiness of the flag value rather than presence of the key. -/
theorem claim_workflows_run_counterexample :
    workflowsRun (fun _ => true) (wfRunners id id id) (fun _ => none)
      ⟨some "email.triage", [], some ""⟩ = .ok [Json.jobj []]
  ∧ WfArgs.argsJson ⟨some "email.triage", [], some ""⟩ = some ""
  ∧ (fun _ => (none : Option Json)) "" = none :=
  ⟨rfl, rfl, rfl⟩

/-- Claim C9 (amended): workflows.run fully drains its input stream; it
throws, without invoking any workflow runner, exactly when the effective
name is missing, not a registered workflow, without an implemented
runner, or when args-json is present with a non-empty value that is not
valid JSON (an empty args-json value is treated as absent); otherwise
the output stream yields exactly one item, the runner result. -/
theorem claim_workflows_run_characterization
    (registry : String → Bool) (r1 r2 r3 r1' r2' r3' : Json → Json)
    (parseJson : String → Option Json) (a : WfArgs) (input : List Json) :
    (workflowsRunCommand registry (wfRunners r1 r2 r3) parseJson input a).1 = []
  ∧ (match workflowsRun registry (wfRunners r1 r2 r3) parseJson a with
    | .err msg =>
        (wfEffectiveName a = none ∨
          ∃ n, wfEffectiveName a = some n ∧
            (registry n = false ∨ wfRunners r1 r2 r3 n = none ∨
             ∃ s, a.argsJson = some s ∧ s ≠ "" ∧ parseJson s = none))
        ∧ workflowsRun registry (wfRunners r1' r2' r3') parseJson a = .err msg
    | .ok l =>
        ¬ (wfEffectiveName a = none ∨
          ∃ n, wfEffectiveName a = some n ∧
            (registry n = false ∨ wfRunners r1 r2 r3 n = none ∨
             ∃ s, a.argsJson = some s ∧ s ≠ "" ∧ parseJson s = none))
        ∧ ∃ n runner j, wfEffectiveName a = some n ∧
            wfRunners r1 r2 r3 n = some runner ∧ l = [runner j]) := by
  refine ⟨drainStream_eq_nil input, ?_⟩
  cases he : wfEffectiveName a with
  | none =>
    have hval : workflowsRun registry (wfRunners r1 r2 r3) parseJson a =
        .err "workflows.run requires --name" := by
      simp [workflowsRun, he]
    rw [hval]
    exact ⟨Or.inl rfl, workflowsRun_err_invariant registry parseJson a _ r1 r2 r3 r1' r2' r3' hval⟩
  | some n =>
    by_cases hn : n = ""
    · have hrn : wfRunners r1 r2 r3 n = none := by rw [hn]; simp [wfRunners]
      have hval : workflowsRun registry (wfRunners r1 r2 r3) parseJson a =
          .err "workflows.run requires --name" := by
        simp [workflowsRun, he, hn]
      rw [hval]
      exact ⟨Or.inr ⟨n, rfl, Or.inr (Or.inl hrn)⟩,
        workflowsRun_err_invariant registry parseJson a _ r1 r2 r3 r1' r2' r3' hval⟩
    · by_cases hreg : registry n = false
      · have hval : workflowsRun registry (wfRunners r1 r2 r3) parseJson a =
            .err ("Unknown workflow: " ++ n) := by
          simp [workflowsRun, he, hn, hreg]
        rw [hval]
        exact ⟨Or.inr ⟨n, rfl, Or.inl hreg⟩,
          workflowsRun_err_invariant registry parseJson a _ r1 r2 r3 r1' r2' r3' hval⟩
      · cases hr : wfRunners r1 r2 r3 n with
        | none =>
          have hval : workflowsRun registry (wfRunners r1 r2 r3) parseJson a =
              .err ("Workflow runner not implemented: " ++ n) := by
            simp [workflowsRun, he, hn, hreg, hr]
          rw [hval]
          exact ⟨Or.inr ⟨n, rfl, Or.inr (Or.inl hr)⟩,
            workflowsRun_err_invariant registry parseJson a _ r1 r2 r3 r1' r2' r3' hval⟩
        | some runner =>
          cases ha : a.argsJson with
          | none =>
            have hval : workflowsRun registry (wfRunners r1 r2 r3) parseJson a =
                .ok [runner (Json.jobj [])] := by
              simp [workflowsRun, he, hn, hreg, hr, ha]
            rw [hval]
            refine ⟨?_, ⟨n, runner, Json.jobj [], rfl, hr, rfl⟩⟩
            rintro (hnone | ⟨n0, hn0, hbad⟩)
            · exact Option.noConfusion hnone
            · cases Option.some.inj hn0
              rcases hbad with h | h | ⟨s, hs1, hs2, hs3⟩
              · exact hreg h
              · rw [hr] at h; exact Option.noConfusion h
              · exact Option.noConfusion hs1
          | some s =>
            by_cases hs : s = ""
            · have hval : workflowsRun registry (wfRunners r1 r2 r3) parseJson a =
                  .ok [runner (Json.jobj [])] := by
                simp [workflowsRun, he, hn, hreg, hr, ha, hs]
              rw [hval]
              refine ⟨?_, ⟨n, runner, Json.jobj [], rfl, hr, rfl⟩⟩
              rintro (hnone | ⟨n0, hn0, hbad⟩)
              · exact Option.noConfusion hnone
              · cases Option.some.inj hn0
                rcases hbad with h | h | ⟨s2, hs1, hs2, hs3⟩
                · exact hreg h
                · rw [hr] at h; exact Option.noConfusion h
                · cases Option.some.inj hs1
                  exact hs2 hs
            · cases hp : parseJson s with
              | none =>
                have hval : workflowsRun registry (wfRunners r1 r2 r3) parseJson a =
                    .err "workflows.run --args-json must be valid JSON" := by
                  simp [workflowsRun, he, hn, hreg, hr, ha, hs, hp]
                rw [hval]
                exact ⟨Or.inr ⟨n, rfl, Or.inr (Or.inr ⟨s, rfl, hs, hp⟩)⟩,
                  workflowsRun_err_invariant registry parseJson a _ r1 r2 r3 r1' r2' r3' hval⟩
              | some j =>
                have hval : workflowsRun registry (wfRunners r1 r2 r3) parseJson a =
                    .ok [runner j] := by
                  simp [workflowsRun, he, hn, hreg, hr, ha, hs, hp]
                rw [hval]
                refine ⟨?_, ⟨n, runner, j, rfl, hr, rfl⟩⟩
                rintro (hnone | ⟨n0, hn0, hbad⟩)
                · exact Option.noConfusion hnone
                · cases Option.some.inj hn0
                  rcases hbad with h | h | ⟨s2, hs1, hs2, hs3⟩
                  · exact hreg h
                  · rw [hr] at h; exact Option.noConfusion h
                  · cases Option.some.inj hs1
                    rw [hp] at hs3
                    exact Option.noConfusion hs3

end Lobster


